import Mathlib

/-!
Verification of the offline outbox / reconciliation engine of `src/offline/sync.ts`.

The engine (`syncNow`) drains a durable outbox of pending mutations in the fixed
phase order Create → Update → Delete, talking to a remote API and folding
results back into an identity map (client id → server id) and a local entity
cache.  The store primitives it calls (`getOutbox`, `setMapping`, `getMapping`,
`putTaskLocal`, `removeTaskLocal`, `removePendingOp`) live in `src/offline/db`,
which is not part of the provided sources; those are modelled from the spec
(sections 4.1–4.3) and are marked as such in their doc comments.  Everything
else is translated directly from `src/offline/sync.ts`.

JavaScript conventions captured by the embedding:
- optional / possibly-absent values are `Option`;
- `String(undefined)` is the string `"undefined"` (see `jsString`);
- a string is falsy exactly when it is empty, and an absent value is falsy
  (the `!serverId` checks in the source);
- `Array.prototype.sort` with comparator `(a, b) => a.ts - b.ts` is a stable
  ascending sort by `ts` (see `sortByTs`);
- a rejected promise from the API client is `Except.error`; the `try`/`catch`
  blocks that `return` from `syncNow` become `Except.error st` results which
  abort the remaining phases.
-/

namespace Yael

/-- The closed status enumeration used by the app (`"Pendiente"`,
`"En Progreso"`, `"Completada"`) is kept as strings, as in the source. -/
abbrev Status := String

/-- An entity (task) as the client stores it.  The first six fields are the
ones produced by `normalizeTask` in `src/offline/sync.ts`; the remaining
optional fields are the extra payload fields a queued mutation may carry
(the `Task` type of the UI layer: `deleted`, `estimatedTime`, `actualTime`,
`isTracking`, `startTime`).  Absent fields are `none`. -/
structure Task where
  _id : String
  title : String
  description : Option String
  status : Status
  clienteId : Option String
  createdAt : Option String
  deleted : Option Bool
  estimatedTime : Option Nat
  actualTime : Option Nat
  isTracking : Option Bool
  startTime : Option Nat
deriving DecidableEq, Repr

/-- A raw, untrusted value as it arrives from the network (the `x : any`
argument of `normalizeTask`).  Each field is `none` when absent. -/
structure RawTask where
  _id : Option String
  id : Option String
  title : Option String
  description : Option String
  status : Option String
  clienteId : Option String
  createdAt : Option String
deriving DecidableEq, Repr

/-- JavaScript's `String(·)` applied to a possibly-absent string:
`String(undefined)` is the literal string `"undefined"`. -/
def jsString (o : Option String) : String := o.getD "undefined"

/-- `normalizeTask` from `src/offline/sync.ts` (lines 14–28): coerces an
arbitrary input into a well-formed task.  `_id` is
`String(x?._id ?? x?.id)`, `title` defaults to the sentinel
`"(sin título)"`, `description` defaults to `""`, and `status` is clamped
to the closed enumeration with default `"Pendiente"`. -/
def normalizeTask (x : RawTask) : Task :=
  { _id := jsString (x._id.orElse fun _ => x.id)
  , title := x.title.getD "(sin título)"
  , description := some (x.description.getD "")
  , status :=
      match x.status with
      | some s => if s = "Completada" ∨ s = "En Progreso" ∨ s = "Pendiente" then s else "Pendiente"
      | none => "Pendiente"
  , clienteId := x.clienteId
  , createdAt := x.createdAt
  , deleted := none
  , estimatedTime := none
  , actualTime := none
  , isTracking := none
  , startTime := none }

/-- The kind of a pending operation (the `op` field of an outbox record). -/
inductive OpKind
  | create
  | update
  | delete
deriving DecidableEq, Repr

/-- A pending operation (outbox record), as enqueued by the UI layer:
`{ _id, op, clienteId, serverId?, data?, ts }`.  `_id` is the queue-internal
record id, `clienteId` the client-generated entity id (possibly `""`),
`serverId` an optional explicit server id (delete records), `data` the
optional entity payload, and `ts` the enqueue timestamp (`Date.now()`). -/
structure Op where
  _id : String
  op : OpKind
  clienteId : String
  serverId : Option String
  data : Option Task
  ts : Nat
deriving DecidableEq, Repr

/-- The request body built for create and update calls:
`{ title: op.data.title, description: op.data.description, status: op.data.status }`. -/
structure TaskBody where
  title : String
  description : Option String
  status : Status
deriving DecidableEq, Repr

/-- Extraction of the request body from a payload; exactly the three fields
named in the source, nothing else. -/
def taskBody (d : Task) : TaskBody :=
  { title := d.title, description := d.description, status := d.status }

/-- `res.data` of a successful create response: `res.data?.task ?? res.data`.
`task` is the optional `task` field of the response body, `asTask` is the
response body itself read as a raw task (used when `task` is absent). -/
structure PostData where
  task : Option RawTask
  asTask : RawTask
deriving DecidableEq, Repr

/-- One network call made by the reconciler, with the data it transmits. -/
inductive Call
  | post (body : TaskBody)
  | put (id : String) (body : TaskBody)
  | delete (id : String)
deriving DecidableEq, Repr

/-- The remote API client (`api` from `../api`).  Each method receives the
index of the call (how many calls were made before it) so that a server may
answer successive calls differently; `Except.error` is a rejected promise. -/
structure Api where
  post : Nat → TaskBody → Except Unit PostData
  put : Nat → String → TaskBody → Except Unit Unit
  delete : Nat → String → Except Unit Unit

/-- The reconciler-visible state: the three durable stores, plus the trace of
network calls made so far in the pass and whether the `sync-complete` event
has been dispatched. -/
structure St where
  outbox : List Op
  mapping : List (String × String)
  cache : List Task
  calls : List Call
  fired : Bool
deriving DecidableEq, Repr

/-- The state at the start of a pass: stores as given, no calls yet, no
completion event yet. -/
def St.init (outbox : List Op) (mapping : List (String × String)) (cache : List Task) : St :=
  { outbox := outbox, mapping := mapping, cache := cache, calls := [], fired := false }

/-- Modelled from the spec: `removePendingOp` of `src/offline/db` (not in the
provided sources).  Spec §4.1: `remove(recordId)` deletes one record by id;
removing a non-existent id is a no-op. -/
def removePendingOp (outbox : List Op) (recordId : String) : List Op :=
  outbox.filter (fun o => decide (o._id ≠ recordId))

/-- Modelled from the spec: `setMapping` of `src/offline/db` (not in the
provided sources).  Spec §4.2: `set(clientRef, serverRef)` stores the
association; calling it twice for the same `clientRef` overwrites. -/
def setMapping (m : List (String × String)) (clientRef serverRef : String) : List (String × String) :=
  (clientRef, serverRef) :: m.filter (fun p => decide (p.1 ≠ clientRef))

/-- Modelled from the spec: `getMapping` of `src/offline/db` (not in the
provided sources).  Spec §4.2: `get(clientRef)` returns the `serverRef` or
"not found" (`none`). -/
def getMapping (m : List (String × String)) (clientRef : String) : Option String :=
  (m.find? (fun p => decide (p.1 = clientRef))).map (fun p => p.2)

/-- Modelled from the spec: `putTaskLocal` of `src/offline/db` (not in the
provided sources).  Spec §4.3: `put(entity)` inserts or overwrites by
`entity.id`. -/
def putTaskLocal (cache : List Task) (t : Task) : List Task :=
  t :: cache.filter (fun u => decide (u._id ≠ t._id))

/-- Modelled from the spec: `removeTaskLocal` of `src/offline/db` (not in the
provided sources).  Spec §4.3: `remove(id)` deletes by id, no-op if absent. -/
def removeTaskLocal (cache : List Task) (id : String) : List Task :=
  cache.filter (fun u => decide (u._id ≠ id))

/-- JavaScript truthiness of a possibly-absent string: absent (`undefined`)
and the empty string are falsy. -/
def falsyS : Option String → Bool
  | none => true
  | some s => decide (s = "")

/-- Stable insertion of one record into a list already sorted by ascending
`ts`: a record is placed after every record with an equal or smaller
timestamp, as JavaScript's stable `sort((a, b) => a.ts - b.ts)` does. -/
def insertTs (x : Op) : List Op → List Op
  | [] => [x]
  | y :: ys => if x.ts < y.ts then x :: y :: ys else y :: insertTs x ys

/-- `ops.sort((a, b) => a.ts - b.ts)` from `syncNow`: stable ascending sort
by enqueue timestamp. -/
def sortByTs : List Op → List Op
  | [] => []
  | x :: xs => insertTs x (sortByTs xs)

/-- `creates` in `syncNow`: the sorted outbox filtered to create records. -/
def createOps (outbox : List Op) : List Op :=
  (sortByTs outbox).filter (fun o => decide (o.op = OpKind.create))

/-- `updates` in `syncNow`: the sorted outbox filtered to update records. -/
def updateOps (outbox : List Op) : List Op :=
  (sortByTs outbox).filter (fun o => decide (o.op = OpKind.update))

/-- `deletes` in `syncNow`: the sorted outbox filtered to delete records. -/
def deleteOps (outbox : List Op) : List Op :=
  (sortByTs outbox).filter (fun o => decide (o.op = OpKind.delete))

/-- One iteration of the create loop of `syncNow` (lines 52–86).
`Except.error` is the `catch`-and-`return` path: the pass aborts with the
returned state.  Accessing `op.data.title` on an absent payload throws
before any call is made, hence the `none` case aborts with no call. -/
def syncCreate (api : Api) (op : Op) (st : St) : Except St St :=
  match op.data with
  | none => .error st
  | some d =>
    let body := taskBody d
    match api.post st.calls.length body with
    | .error _ => .error { st with calls := st.calls ++ [Call.post body] }
    | .ok r =>
      let serverTask := normalizeTask (r.task.getD r.asTask)
      let serverId := serverTask._id
      if serverId = "" ∨ serverId = op.clienteId then
        .error { st with calls := st.calls ++ [Call.post body] }
      else
        .ok { st with
          mapping := setMapping st.mapping op.clienteId serverId
          cache := putTaskLocal (removeTaskLocal st.cache op.clienteId) serverTask
          outbox := removePendingOp st.outbox op._id
          calls := st.calls ++ [Call.post body] }

/-- One iteration of the update loop of `syncNow` (lines 91–121).  A falsy
mapping result (`!serverId`) discards the record without a network call and
continues; a rejected `api.put` aborts the pass. -/
def syncUpdate (api : Api) (op : Op) (st : St) : Except St St :=
  match getMapping st.mapping op.clienteId with
  | none => .ok { st with outbox := removePendingOp st.outbox op._id }
  | some s =>
    if s = "" then
      .ok { st with outbox := removePendingOp st.outbox op._id }
    else
      match op.data with
      | none => .error st
      | some d =>
        let body := taskBody d
        match api.put st.calls.length s body with
        | .error _ => .error { st with calls := st.calls ++ [Call.put s body] }
        | .ok _ =>
          .ok { st with
            cache := putTaskLocal st.cache { d with _id := s }
            outbox := removePendingOp st.outbox op._id
            calls := st.calls ++ [Call.put s body] }

/-- One iteration of the delete loop of `syncNow` (lines 126–156).  The target
server id prefers the record's explicit `serverId`; when that is falsy and
`op.clienteId` is truthy, the identity map is consulted.  A falsy resolved id
discards the record without a network call; a rejected `api.delete` aborts
the pass. -/
def syncDelete (api : Api) (op : Op) (st : St) : Except St St :=
  let sid0 := op.serverId
  let sid1 := if falsyS sid0 ∧ op.clienteId ≠ "" then getMapping st.mapping op.clienteId else sid0
  match sid1 with
  | none => .ok { st with outbox := removePendingOp st.outbox op._id }
  | some s =>
    if s = "" then
      .ok { st with outbox := removePendingOp st.outbox op._id }
    else
      match api.delete st.calls.length s with
      | .error _ => .error { st with calls := st.calls ++ [Call.delete s] }
      | .ok _ =>
        .ok { st with
          cache := removeTaskLocal st.cache s
          outbox := removePendingOp st.outbox op._id
          calls := st.calls ++ [Call.delete s] }

/-- Runs one phase loop over its records: `Except.error` propagates the abort
of the pass, `Except.ok` continues with the next record. -/
def runPhase (step : Op → St → Except St St) : List Op → St → Except St St
  | [], st => .ok st
  | op :: rest, st =>
    match step op st with
    | .error e => .error e
    | .ok st' => runPhase step rest st'

/-- The three phase loops of `syncNow` in order (lines 49–161): Create, then
Update, then Delete; an abort in any phase ends the pass with the aborting
state; completing all three dispatches the `sync-complete` event
(`fired := true`). -/
def runAll (api : Api) (st : St) : St :=
  match runPhase (syncCreate api) (createOps st.outbox) st with
  | .error e => e
  | .ok s1 =>
    match runPhase (syncUpdate api) (updateOps st.outbox) s1 with
    | .error e => e
    | .ok s2 =>
      match runPhase (syncDelete api) (deleteOps st.outbox) s2 with
      | .error e => e
      | .ok s3 => { s3 with fired := true }

/-- `syncNow` from `src/offline/sync.ts` (lines 30–162): exits untouched when
offline (`!navigator.onLine`) or when the outbox is empty (`!ops.length`);
otherwise sorts the outbox by `ts`, partitions it by kind and runs the three
phases (`runAll`). -/
def syncNow (api : Api) (online : Bool) (st : St) : St :=
  if !online then st
  else
    let ops := sortByTs st.outbox
    if ops.length = 0 then st
    else runAll api st

/-- Decidable equality for the result of one phase step, used to evaluate
concrete runs in witnesses. -/
instance : DecidableEq (Except St St) := fun a b =>
  match a, b with
  | .error x, .error y =>
    if hxy : x = y then isTrue (by subst hxy; rfl)
    else isFalse (fun hc => hxy (by cases hc; rfl))
  | .ok x, .ok y =>
    if hxy : x = y then isTrue (by subst hxy; rfl)
    else isFalse (fun hc => hxy (by cases hc; rfl))
  | .error _, .ok _ => isFalse (fun hc => Except.noConfusion hc)
  | .ok _, .error _ => isFalse (fun hc => Except.noConfusion hc)

/-- The state carried by a phase result, whether the phase aborted or not. -/
def outSt : Except St St → St
  | .ok s => s
  | .error s => s

/-- Recognizer for create calls in the trace. -/
def isPost : Call → Bool
  | .post _ => true
  | _ => false

/-- Recognizer for update calls in the trace. -/
def isPut : Call → Bool
  | .put _ _ => true
  | _ => false

/-- Recognizer for delete calls in the trace. -/
def isDel : Call → Bool
  | .delete _ => true
  | _ => false

/-- Records `a` may precede `b` in replay order when `a.ts ≤ b.ts`. -/
abbrev tsLe (a b : Op) : Prop := a.ts ≤ b.ts

/-- A concrete create payload (client id `"c1"`, title `"A"`) carrying the
extra UI fields a queued mutation holds. -/
def payloadA : Task :=
  { _id := "c1", title := "A", description := some "", status := "Pendiente"
  , clienteId := some "c1", createdAt := none, deleted := none
  , estimatedTime := some 30, actualTime := some 0, isTracking := some false
  , startTime := none }

/-- A concrete create record for `payloadA`. -/
def opCreateA : Op :=
  { _id := "r1", op := OpKind.create, clienteId := "c1", serverId := none
  , data := some payloadA, ts := 1 }

/-- A server create response carrying server id `"s1"` but title `"B"`
(different from the submitted title `"A"`). -/
def rawRespB : RawTask :=
  { _id := some "s1", id := none, title := some "B", description := some ""
  , status := some "Pendiente", clienteId := none, createdAt := none }

/-- An API whose create call answers `rawRespB` and whose other calls
succeed. -/
def apiRespB : Api :=
  { post := fun _ _ => .ok { task := none, asTask := rawRespB }
  , put := fun _ _ _ => .ok (), delete := fun _ _ => .ok () }

/-- A server create response with no id field at all. -/
def rawNoId : RawTask :=
  { _id := none, id := none, title := some "B", description := some ""
  , status := some "Pendiente", clienteId := none, createdAt := none }

/-- An API whose create call answers without any server id field. -/
def apiNoId : Api :=
  { post := fun _ _ => .ok { task := none, asTask := rawNoId }
  , put := fun _ _ _ => .ok (), delete := fun _ _ => .ok () }

/-- An API that rejects every call. -/
def apiDown : Api :=
  { post := fun _ _ => .error (), put := fun _ _ _ => .error ()
  , delete := fun _ _ => .error () }

/-- A four-record outbox mixing all three kinds. -/
def obMixed : List Op :=
  [ opCreateA
  , { _id := "r2", op := OpKind.create, clienteId := "c2", serverId := none
    , data := some { payloadA with _id := "c2", title := "C", clienteId := some "c2" }
    , ts := 2 }
  , { _id := "r3", op := OpKind.update, clienteId := "c1", serverId := none
    , data := some { payloadA with title := "A2" }, ts := 3 }
  , { _id := "r4", op := OpKind.delete, clienteId := "", serverId := some "s9"
    , data := none, ts := 4 } ]

/-- The state after `syncCreate apiRespB opCreateA` succeeds from
`St.init [opCreateA] [] []`. -/
def stC2 : St :=
  { outbox := [], mapping := [("c1", "s1")], cache := [normalizeTask rawRespB]
  , calls := [Call.post (taskBody payloadA)], fired := false }

/-- The state in which a pass over `obMixed` aborts when the API rejects the
first create call. -/
def stfW : St :=
  { outbox := obMixed, mapping := [], cache := []
  , calls := [Call.post (taskBody payloadA)], fired := false }

/-- A delete record carrying an explicit server id `"s9"`. -/
def opDeleteS9 : Op :=
  { _id := "r4", op := OpKind.delete, clienteId := "", serverId := some "s9"
  , data := none, ts := 4 }

/-- A delete record with no explicit server id whose client id `"c1"` must
be resolved through the identity map. -/
def opDeleteC1 : Op :=
  { _id := "r5", op := OpKind.delete, clienteId := "c1", serverId := none
  , data := none, ts := 7 }

theorem mem_insertTs {a x : Op} : ∀ {l : List Op}, a ∈ insertTs x l ↔ a = x ∨ a ∈ l
  | [] => by simp [insertTs]
  | y :: ys => by
    simp only [insertTs]
    split
    · simp [List.mem_cons]
    · rw [List.mem_cons, mem_insertTs (l := ys), List.mem_cons]
      tauto

theorem pairwise_insertTs {x : Op} : ∀ {l : List Op},
    l.Pairwise tsLe → (insertTs x l).Pairwise tsLe
  | [], _ => by simp [insertTs]
  | y :: ys, h => by
    rw [List.pairwise_cons] at h
    obtain ⟨hy, hys⟩ := h
    simp only [insertTs]
    split
    · next hlt =>
      refine List.Pairwise.cons ?_ (List.Pairwise.cons hy hys)
      intro z hz
      rcases List.mem_cons.mp hz with rfl | hz
      · exact Nat.le_of_lt hlt
      · exact Nat.le_trans (Nat.le_of_lt hlt) (hy z hz)
    · next hge =>
      refine List.Pairwise.cons ?_ (pairwise_insertTs hys)
      intro z hz
      rcases mem_insertTs.mp hz with rfl | hz
      · exact Nat.le_of_not_lt hge
      · exact hy z hz

theorem pairwise_sortByTs : ∀ (l : List Op), (sortByTs l).Pairwise tsLe
  | [] => by simp [sortByTs]
  | x :: xs => pairwise_insertTs (pairwise_sortByTs xs)

theorem insertTs_perm (x : Op) : ∀ (l : List Op), List.Perm (insertTs x l) (x :: l)
  | [] => List.Perm.refl _
  | y :: ys => by
    simp only [insertTs]
    split
    · exact List.Perm.refl _
    · exact (List.Perm.cons y (insertTs_perm x ys)).trans (List.Perm.swap x y ys)

theorem sortByTs_perm : ∀ (l : List Op), List.Perm (sortByTs l) l
  | [] => List.Perm.refl _
  | x :: xs => (insertTs_perm x (sortByTs xs)).trans (List.Perm.cons x (sortByTs_perm xs))

theorem createOps_sorted (ob : List Op) : (createOps ob).Pairwise tsLe :=
  (pairwise_sortByTs ob).sublist (List.filter_sublist _)

theorem updateOps_sorted (ob : List Op) : (updateOps ob).Pairwise tsLe :=
  (pairwise_sortByTs ob).sublist (List.filter_sublist _)

theorem deleteOps_sorted (ob : List Op) : (deleteOps ob).Pairwise tsLe :=
  (pairwise_sortByTs ob).sublist (List.filter_sublist _)

theorem mem_of_mem_createOps {o : Op} {ob : List Op} (h : o ∈ createOps ob) :
    o ∈ ob ∧ o.op = OpKind.create := by
  rw [createOps, List.mem_filter] at h
  exact ⟨(sortByTs_perm ob).mem_iff.mp h.1, of_decide_eq_true h.2⟩

theorem mem_of_mem_updateOps {o : Op} {ob : List Op} (h : o ∈ updateOps ob) :
    o ∈ ob ∧ o.op = OpKind.update := by
  rw [updateOps, List.mem_filter] at h
  exact ⟨(sortByTs_perm ob).mem_iff.mp h.1, of_decide_eq_true h.2⟩

theorem mem_of_mem_deleteOps {o : Op} {ob : List Op} (h : o ∈ deleteOps ob) :
    o ∈ ob ∧ o.op = OpKind.delete := by
  rw [deleteOps, List.mem_filter] at h
  exact ⟨(sortByTs_perm ob).mem_iff.mp h.1, of_decide_eq_true h.2⟩

theorem eq_of_mem_of_nodup_map {l : List Op}
    (h : (l.map (fun o => o._id)).Nodup) {a b : Op}
    (ha : a ∈ l) (hb : b ∈ l) (hid : a._id = b._id) : a = b := by
  induction l with
  | nil => cases ha
  | cons x xs ih =>
    rw [List.map_cons, List.nodup_cons] at h
    rcases List.mem_cons.mp ha with rfl | ha' <;> rcases List.mem_cons.mp hb with rfl | hb'
    · rfl
    · exact absurd (hid ▸ List.mem_map_of_mem _ hb') h.1
    · exact absurd (hid ▸ List.mem_map_of_mem _ ha') h.1
    · exact ih h.2 ha' hb'

theorem nodup_ids_createOps {ob : List Op}
    (h : (ob.map (fun o => o._id)).Nodup) :
    ((createOps ob).map (fun o => o._id)).Nodup := by
  have hperm : ((sortByTs ob).map (fun o => o._id)).Nodup :=
    (((sortByTs_perm ob).map (fun o => o._id)).nodup_iff).mpr h
  exact hperm.sublist ((List.filter_sublist _).map _)

theorem syncCreate_calls (api : Api) (op : Op) (st : St) :
    ∃ l, (outSt (syncCreate api op st)).calls = st.calls ++ l ∧ l.all isPost = true := by
  simp only [syncCreate]
  split
  · exact ⟨[], by simp [outSt]⟩
  · next d hd =>
    split
    · exact ⟨[Call.post (taskBody d)], by simp [outSt, isPost]⟩
    · split
      · exact ⟨[Call.post (taskBody d)], by simp [outSt, isPost]⟩
      · exact ⟨[Call.post (taskBody d)], by simp [outSt, isPost]⟩

theorem syncUpdate_calls (api : Api) (op : Op) (st : St) :
    ∃ l, (outSt (syncUpdate api op st)).calls = st.calls ++ l ∧ l.all isPut = true := by
  simp only [syncUpdate]
  split
  · exact ⟨[], by simp [outSt]⟩
  · next s hs =>
    split
    · exact ⟨[], by simp [outSt]⟩
    · split
      · exact ⟨[], by simp [outSt]⟩
      · next d hd =>
        split
        · exact ⟨[Call.put s (taskBody d)], by simp [outSt, isPut]⟩
        · exact ⟨[Call.put s (taskBody d)], by simp [outSt, isPut]⟩

theorem syncDelete_calls (api : Api) (op : Op) (st : St) :
    ∃ l, (outSt (syncDelete api op st)).calls = st.calls ++ l ∧ l.all isDel = true := by
  simp only [syncDelete]
  split
  · exact ⟨[], by simp [outSt]⟩
  · next s hs =>
    split
    · exact ⟨[], by simp [outSt]⟩
    · split
      · exact ⟨[Call.delete s], by simp [outSt, isDel]⟩
      · exact ⟨[Call.delete s], by simp [outSt, isDel]⟩

theorem syncCreate_fired (api : Api) (op : Op) (st : St) :
    (outSt (syncCreate api op st)).fired = st.fired := by
  simp only [syncCreate]
  split
  · simp [outSt]
  · split
    · simp [outSt]
    · split <;> simp [outSt]

theorem syncUpdate_fired (api : Api) (op : Op) (st : St) :
    (outSt (syncUpdate api op st)).fired = st.fired := by
  simp only [syncUpdate]
  split
  · simp [outSt]
  · split
    · simp [outSt]
    · split
      · simp [outSt]
      · split <;> simp [outSt]

theorem syncDelete_fired (api : Api) (op : Op) (st : St) :
    (outSt (syncDelete api op st)).fired = st.fired := by
  simp only [syncDelete]
  split
  · simp [outSt]
  · split
    · simp [outSt]
    · split <;> simp [outSt]

theorem syncCreate_outbox_ok {api : Api} {op : Op} {st st' : St}
    (h : syncCreate api op st = .ok st') :
    st'.outbox = removePendingOp st.outbox op._id := by
  simp only [syncCreate] at h
  split at h
  · cases h
  · split at h
    · cases h
    · split at h
      · cases h
      · cases h; rfl

theorem syncCreate_outbox_error {api : Api} {op : Op} {st st' : St}
    (h : syncCreate api op st = .error st') : st'.outbox = st.outbox := by
  simp only [syncCreate] at h
  split at h
  · cases h; rfl
  · split at h
    · cases h; rfl
    · split at h
      · cases h; rfl
      · cases h

theorem syncUpdate_outbox_ok {api : Api} {op : Op} {st st' : St}
    (h : syncUpdate api op st = .ok st') :
    st'.outbox = removePendingOp st.outbox op._id := by
  simp only [syncUpdate] at h
  split at h
  · cases h; rfl
  · split at h
    · cases h; rfl
    · split at h
      · cases h
      · split at h
        · cases h
        · cases h; rfl

theorem syncUpdate_outbox_error {api : Api} {op : Op} {st st' : St}
    (h : syncUpdate api op st = .error st') : st'.outbox = st.outbox := by
  simp only [syncUpdate] at h
  split at h
  · cases h
  · split at h
    · cases h
    · split at h
      · cases h; rfl
      · split at h
        · cases h; rfl
        · cases h

theorem syncDelete_outbox_ok {api : Api} {op : Op} {st st' : St}
    (h : syncDelete api op st = .ok st') :
    st'.outbox = removePendingOp st.outbox op._id := by
  simp only [syncDelete] at h
  split at h
  · cases h; rfl
  · split at h
    · cases h; rfl
    · split at h
      · cases h
      · cases h; rfl

theorem syncDelete_outbox_error {api : Api} {op : Op} {st st' : St}
    (h : syncDelete api op st = .error st') : st'.outbox = st.outbox := by
  simp only [syncDelete] at h
  split at h
  · cases h
  · split at h
    · cases h
    · split at h
      · cases h; rfl
      · cases h

theorem runPhase_calls {step : Op → St → Except St St} {k : Call → Bool}
    (hstep : ∀ op st, ∃ l, (outSt (step op st)).calls = st.calls ++ l ∧ l.all k = true) :
    ∀ (ops : List Op) (st : St),
      ∃ l, (outSt (runPhase step ops st)).calls = st.calls ++ l ∧ l.all k = true
  | [], st => ⟨[], by simp [runPhase, outSt]⟩
  | op :: rest, st => by
    simp only [runPhase]
    cases hs : step op st with
    | error e =>
      obtain ⟨l, hl, hall⟩ := hstep op st
      rw [hs] at hl
      exact ⟨l, hl, hall⟩
    | ok st1 =>
      obtain ⟨l1, hl1, hall1⟩ := hstep op st
      rw [hs] at hl1
      simp only [outSt] at hl1
      obtain ⟨l2, hl2, hall2⟩ := runPhase_calls hstep rest st1
      refine ⟨l1 ++ l2, ?_, ?_⟩
      · show (outSt (runPhase step rest st1)).calls = st.calls ++ (l1 ++ l2)
        rw [hl2, hl1, List.append_assoc]
      · simp only [List.all_append, hall1, hall2, Bool.and_self]

theorem runPhase_fired {step : Op → St → Except St St}
    (hstep : ∀ op st, (outSt (step op st)).fired = st.fired) :
    ∀ (ops : List Op) (st : St), (outSt (runPhase step ops st)).fired = st.fired
  | [], st => by simp [runPhase, outSt]
  | op :: rest, st => by
    simp only [runPhase]
    cases hs : step op st with
    | error e =>
      have := hstep op st
      rw [hs] at this
      exact this
    | ok st1 =>
      have h1 := hstep op st
      rw [hs] at h1
      simp only [outSt] at h1
      have h2 := runPhase_fired hstep rest st1
      show (outSt (runPhase step rest st1)).fired = st.fired
      rw [h2, h1]

theorem runPhase_keep {step : Op → St → Except St St}
    (hok : ∀ op st st', step op st = .ok st' → st'.outbox = removePendingOp st.outbox op._id)
    (herr : ∀ op st st', step op st = .error st' → st'.outbox = st.outbox) :
    ∀ (ops : List Op) (st : St) (r : Op), r ∈ st.outbox →
      (∀ op ∈ ops, r._id ≠ op._id) → r ∈ (outSt (runPhase step ops st)).outbox
  | [], st, r, hr, _ => by simpa [runPhase, outSt] using hr
  | op :: rest, st, r, hr, hne => by
    simp only [runPhase]
    cases hs : step op st with
    | error e =>
      have := herr op st e hs
      simp only [outSt, this]
      exact hr
    | ok st1 =>
      have h1 := hok op st st1 hs
      have hmem : r ∈ st1.outbox := by
        rw [h1, removePendingOp, List.mem_filter]
        exact ⟨hr, decide_eq_true (hne op (List.mem_cons_self op rest))⟩
      exact runPhase_keep hok herr rest st1 r hmem
        (fun o ho => hne o (List.mem_cons_of_mem op ho))

theorem runPhase_eq_error {step : Op → St → Except St St} :
    ∀ {ops : List Op} {st stf : St}, runPhase step ops st = .error stf →
      ∃ pre x post st1, ops = pre ++ x :: post ∧
        runPhase step pre st = .ok st1 ∧ step x st1 = .error stf
  | [], st, stf, h => by simp [runPhase] at h
  | op :: rest, st, stf, h => by
    simp only [runPhase] at h
    cases hs : step op st with
    | error e =>
      rw [hs] at h
      cases h
      exact ⟨[], op, rest, st, rfl, rfl, hs⟩
    | ok st1 =>
      rw [hs] at h
      obtain ⟨pre, x, post, st2, hops, hpre, hx⟩ := runPhase_eq_error h
      refine ⟨op :: pre, x, post, st2, by rw [hops, List.cons_append], ?_, hx⟩
      simp only [runPhase, hs, hpre]

theorem syncNow_online (api : Api) (st : St)
    (h : ¬ (sortByTs st.outbox).length = 0) :
    syncNow api true st = runAll api st := by
  simp [syncNow, h]

theorem syncNow_stop (api : Api) (st : St)
    (h : (sortByTs st.outbox).length = 0) :
    syncNow api true st = st := by
  simp [syncNow, h]

theorem getMapping_setMapping (m : List (String × String)) (cl sv : String) :
    getMapping (setMapping m cl sv) cl = some sv := by
  simp [getMapping, setMapping, List.find?_cons_of_pos]

theorem mem_all_false {k : Call → Bool} {l : List Call} {x : Call}
    (hall : l.all k = true) (hx : k x = false) : x ∉ l := by
  intro hm
  rw [List.all_eq_true] at hall
  rw [hall x hm] at hx
  cases hx

/-- C8: invoking the reconciler against an empty outbox performs zero network
calls and leaves every store (outbox, identity map, local entity cache)
unchanged — the resulting state is exactly the initial state, whose call
trace is empty and whose completion flag is unset. -/
theorem empty_outbox_noop (api : Api) (online : Bool)
    (m : List (String × String)) (c : List Task) :
    syncNow api online (St.init [] m c) = St.init [] m c := by
  cases online <;> rfl

/-- C7: `normalizeTask` is a pure (total) function producing a well-formed
entity for every raw input: the status always lies in the closed enumeration
`\x7bPendiente, En Progreso, Completada\x7d`, a missing title defaults to the
sentinel `"(sin título)"`, the id is taken from the `_id` field or, failing
that, the `id` field, a missing status defaults to `"Pendiente"`, and any
unrecognized status value is clamped to `"Pendiente"`. -/
theorem normalizeTask_wellformed (x : RawTask) :
    ((normalizeTask x).status = "Pendiente" ∨ (normalizeTask x).status = "En Progreso" ∨
      (normalizeTask x).status = "Completada") ∧
    (x.title = none → (normalizeTask x).title = "(sin título)") ∧
    (∀ s, x._id = some s → (normalizeTask x)._id = s) ∧
    (x._id = none → ∀ s, x.id = some s → (normalizeTask x)._id = s) ∧
    (x.status = none → (normalizeTask x).status = "Pendiente") ∧
    (∀ s, x.status = some s →
      s ≠ "Completada" → s ≠ "En Progreso" → s ≠ "Pendiente" →
      (normalizeTask x).status = "Pendiente") := by
  refine ⟨?_, ?_, ?_, ?_, ?_, ?_⟩
  · simp only [normalizeTask]
    cases hs : x.status with
    | none => exact Or.inl rfl
    | some s =>
      dsimp only
      by_cases h : s = "Completada" ∨ s = "En Progreso" ∨ s = "Pendiente"
      · rw [if_pos h]
        tauto
      · rw [if_neg h]
        exact Or.inl rfl
  · intro ht
    simp [normalizeTask, ht]
  · intro s hs
    simp [normalizeTask, hs, jsString, Option.orElse]
  · intro h1 s h2
    simp [normalizeTask, h1, h2, jsString, Option.orElse]
  · intro hs
    simp [normalizeTask, hs]
  · intro s hs h1 h2 h3
    simp only [normalizeTask, hs]
    rw [if_neg (by tauto)]

/-- C7 witness: a concrete raw input with no `_id`, an `id` field, no title
and an unrecognized status normalizes to the defaults the theorem states. -/
theorem normalizeTask_wellformed_witness :
    (normalizeTask ⟨none, some "abc", none, none, some "weird", none, none⟩)._id = "abc" ∧
    (normalizeTask ⟨none, some "abc", none, none, some "weird", none, none⟩).title = "(sin título)" ∧
    (normalizeTask ⟨none, some "abc", none, none, some "weird", none, none⟩).status = "Pendiente" :=
  ⟨(normalizeTask_wellformed ⟨none, some "abc", none, none, some "weird", none, none⟩).2.2.2.1
      rfl "abc" rfl,
   (normalizeTask_wellformed ⟨none, some "abc", none, none, some "weird", none, none⟩).2.1 rfl,
   (normalizeTask_wellformed ⟨none, some "abc", none, none, some "weird", none, none⟩).2.2.2.2.2
      "weird" rfl (by decide) (by decide) (by decide)⟩

/-- C5: an update record whose `clienteId` has no identity mapping is removed
from the outbox with no network call (the trace and the other stores are
untouched) and the phase continues (`Except.ok`); the same discard holds for
a delete record with no identity mapping and no explicit `serverId`. -/
theorem orphan_discard (api : Api) (op : Op) (st : St) :
    (op.op = OpKind.update → getMapping st.mapping op.clienteId = none →
      syncUpdate api op st = .ok { st with outbox := removePendingOp st.outbox op._id }) ∧
    (op.op = OpKind.delete → op.serverId = none →
      getMapping st.mapping op.clienteId = none →
      syncDelete api op st = .ok { st with outbox := removePendingOp st.outbox op._id }) := by
  constructor
  · intro _ hm
    simp [syncUpdate, hm]
  · intro _ hs hm
    by_cases hcid : op.clienteId = ""
    · simp [syncDelete, hs, hm, falsyS, hcid]
    · simp [syncDelete, hs, hm, falsyS, hcid]

/-- C5 witness: with an empty identity map, a concrete orphan update and a
concrete orphan delete are discarded from the outbox with no network call. -/
theorem orphan_discard_witness :
    (syncUpdate { post := fun _ _ => .error (), put := fun _ _ _ => .error ()
                , delete := fun _ _ => .error () }
      { _id := "u1", op := OpKind.update, clienteId := "c9", serverId := none
      , data := none, ts := 5 }
      (St.init [] [] []) =
      .ok { St.init [] [] [] with
            outbox := removePendingOp (St.init [] [] []).outbox "u1" }) ∧
    (syncDelete { post := fun _ _ => .error (), put := fun _ _ _ => .error ()
                , delete := fun _ _ => .error () }
      { _id := "d1", op := OpKind.delete, clienteId := "c9", serverId := none
      , data := none, ts := 6 }
      (St.init [] [] []) =
      .ok { St.init [] [] [] with
            outbox := removePendingOp (St.init [] [] []).outbox "d1" }) :=
  ⟨(orphan_discard _ _ _).1 rfl rfl, (orphan_discard _ _ _).2 rfl rfl rfl⟩

/-- C6: a delete record resolves its target server id by preferring a
(truthy) explicit `serverId` on the record, otherwise consulting the
identity map with its `clienteId`; with a resolved id `s` it submits a
delete call for `s`; on success the entity keyed `s` leaves the local cache
and the record leaves the outbox; on a rejected call the phase — and with it
the pass — stops with the aborting state. -/
theorem delete_resolution (api : Api) (op : Op) (st : St) (s : String) :
    (op.serverId = some s → s ≠ "" →
      (api.delete st.calls.length s = .ok () →
        syncDelete api op st = .ok { st with
          cache := removeTaskLocal st.cache s
          outbox := removePendingOp st.outbox op._id
          calls := st.calls ++ [Call.delete s] }) ∧
      (api.delete st.calls.length s = .error () →
        syncDelete api op st = .error { st with calls := st.calls ++ [Call.delete s] })) ∧
    (op.serverId = none → op.clienteId ≠ "" →
      getMapping st.mapping op.clienteId = some s → s ≠ "" →
      (api.delete st.calls.length s = .ok () →
        syncDelete api op st = .ok { st with
          cache := removeTaskLocal st.cache s
          outbox := removePendingOp st.outbox op._id
          calls := st.calls ++ [Call.delete s] }) ∧
      (api.delete st.calls.length s = .error () →
        syncDelete api op st = .error { st with calls := st.calls ++ [Call.delete s] })) ∧
    (∀ rest e, syncDelete api op st = .error e →
      runPhase (syncDelete api) (op :: rest) st = .error e) := by
  refine ⟨?_, ?_, ?_⟩
  · intro hs hne
    constructor
    · intro hap
      simp [syncDelete, hs, falsyS, hne, hap]
    · intro hap
      simp [syncDelete, hs, falsyS, hne, hap]
  · intro hs hcid hm hne
    constructor
    · intro hap
      simp [syncDelete, hs, falsyS, hcid, hm, hne, hap]
    · intro hap
      simp [syncDelete, hs, falsyS, hcid, hm, hne, hap]
  · intro rest e h
    simp [runPhase, h]

theorem St_init_calls (ob : List Op) (m : List (String × String)) (c : List Task) :
    (St.init ob m c).calls = [] := rfl

theorem St_init_outbox (ob : List Op) (m : List (String × String)) (c : List Task) :
    (St.init ob m c).outbox = ob := rfl

theorem St_init_fired (ob : List Op) (m : List (String × String)) (c : List Task) :
    (St.init ob m c).fired = false := rfl

/-- C2 (amended): when `syncCreate` succeeds on a record, the server answered
the create call with some response `r`; writing `S` for the id of the
normalized response, the identity map now sends the record's `clienteId` to
`S`, `S` differs from the `clienteId`, no cache entry is keyed by the
`clienteId` any more, the cache contains the normalized server response (the
entity keyed `S` — it carries the submitted payload fields exactly when the
server echoed them back), and the record is removed from the outbox. -/
theorem create_success_state {api : Api} {op : Op} {st st' : St}
    (h : syncCreate api op st = .ok st') :
    ∃ d r, op.data = some d ∧
      api.post st.calls.length (taskBody d) = .ok r ∧
      getMapping st'.mapping op.clienteId =
        some (normalizeTask (r.task.getD r.asTask))._id ∧
      (normalizeTask (r.task.getD r.asTask))._id ≠ op.clienteId ∧
      (∀ t ∈ st'.cache, t._id ≠ op.clienteId) ∧
      normalizeTask (r.task.getD r.asTask) ∈ st'.cache ∧
      (∀ t ∈ st'.cache, t._id = (normalizeTask (r.task.getD r.asTask))._id →
        t = normalizeTask (r.task.getD r.asTask)) ∧
      st'.outbox = removePendingOp st.outbox op._id := by
  simp only [syncCreate] at h
  split at h
  · cases h
  · next d hd =>
    split at h
    · cases h
    · next r hr =>
      split at h
      · cases h
      · next hcheck =>
        cases h
        push_neg at hcheck
        obtain ⟨hne1, hne2⟩ := hcheck
        refine ⟨d, r, hd, hr, getMapping_setMapping _ _ _, hne2, ?_, ?_, ?_, rfl⟩
        · intro t ht
          simp only [putTaskLocal, removeTaskLocal] at ht
          rcases List.mem_cons.mp ht with rfl | ht'
          · exact hne2
          · exact of_decide_eq_true (List.mem_filter.mp (List.mem_filter.mp ht').1).2
        · exact List.mem_cons_self _ _
        · intro t ht hid
          simp only [putTaskLocal] at ht
          rcases List.mem_cons.mp ht with rfl | ht'
          · rfl
          · exact absurd hid (of_decide_eq_true (List.mem_filter.mp ht').2)

/-- C2 counterexample: a create on `"c1"` succeeds — the pass completes and
the identity map sends `"c1"` to the server id `"s1"` — yet because the
server's response carried title `"B"`, the cache holds no entity keyed
`"s1"` with the submitted payload's title `"A"`: the cache reflects the
server response, not the submitted payload. -/
theorem create_success_counterexample :
    ((syncNow apiRespB true (St.init [opCreateA] [] [])).fired = true) ∧
    (getMapping (syncNow apiRespB true (St.init [opCreateA] [] [])).mapping "c1" =
      some "s1") ∧
    ¬ (∃ t ∈ (syncNow apiRespB true (St.init [opCreateA] [] [])).cache,
        t._id = "s1" ∧ t.title = payloadA.title) := by
  decide

/-- C2 witness: the concrete successful create on `"c1"` with response id
`"s1"` satisfies every conclusion of the amended theorem. -/
theorem create_success_state_witness :
    (syncCreate apiRespB opCreateA (St.init [opCreateA] [] []) = .ok stC2) ∧
    (∃ d r, opCreateA.data = some d ∧
      apiRespB.post (St.init [opCreateA] [] []).calls.length (taskBody d) = .ok r ∧
      getMapping stC2.mapping opCreateA.clienteId =
        some (normalizeTask (r.task.getD r.asTask))._id ∧
      (normalizeTask (r.task.getD r.asTask))._id ≠ opCreateA.clienteId ∧
      (∀ t ∈ stC2.cache, t._id ≠ opCreateA.clienteId) ∧
      normalizeTask (r.task.getD r.asTask) ∈ stC2.cache ∧
      (∀ t ∈ stC2.cache, t._id = (normalizeTask (r.task.getD r.asTask))._id →
        t = normalizeTask (r.task.getD r.asTask)) ∧
      stC2.outbox = removePendingOp (St.init [opCreateA] [] []).outbox opCreateA._id) :=
  ⟨by decide, create_success_state (by decide)⟩

/-- C4: evaluation of the code at the failing input.  The server's create
response contains no id at all, so `String(x?._id ?? x?.id)` yields the
string `"undefined"`, which is truthy and different from `"c1"`; the
`!serverId` guard therefore does not fire.  Contrary to the claim, the pass
does not abort: it completes (`fired = true`), records the mapping
`"c1" → "undefined"`, caches an entity keyed `"undefined"`, and removes the
record from the outbox. -/
theorem create_missing_id_eval :
    ((syncNow apiNoId true (St.init [opCreateA] [] [])).fired = true) ∧
    (getMapping (syncNow apiNoId true (St.init [opCreateA] [] [])).mapping "c1" =
      some "undefined") ∧
    (∃ t ∈ (syncNow apiNoId true (St.init [opCreateA] [] [])).cache,
      t._id = "undefined") ∧
    ((syncNow apiNoId true (St.init [opCreateA] [] [])).outbox = []) := by
  decide

/-- C1: in every sync pass, whatever the relative enqueue order of the
records, the network-call trace splits into all create calls, then all
update calls, then all delete calls; and the record list each phase iterates
over (`createOps`, `updateOps`, `deleteOps`) is in ascending `ts` order. -/
theorem phase_order (api : Api) (ob : List Op) (m : List (String × String))
    (c : List Task) :
    (∃ P U D, (syncNow api true (St.init ob m c)).calls = P ++ U ++ D ∧
       P.all isPost = true ∧ U.all isPut = true ∧ D.all isDel = true) ∧
    (createOps ob).Pairwise tsLe ∧ (updateOps ob).Pairwise tsLe ∧
    (deleteOps ob).Pairwise tsLe := by
  refine ⟨?_, createOps_sorted ob, updateOps_sorted ob, deleteOps_sorted ob⟩
  by_cases h0 : (sortByTs (St.init ob m c).outbox).length = 0
  · rw [syncNow_stop api _ h0]
    exact ⟨[], [], [], rfl, rfl, rfl, rfl⟩
  · rw [syncNow_online api _ h0]
    simp only [runAll, St_init_outbox]
    obtain ⟨P, hP, hPall⟩ := runPhase_calls (fun op st => syncCreate_calls api op st)
      (createOps ob) (St.init ob m c)
    rw [St_init_calls, List.nil_append] at hP
    cases hc : runPhase (syncCreate api) (createOps ob) (St.init ob m c) with
    | error e =>
      rw [hc] at hP
      simp only [outSt] at hP
      refine ⟨P, [], [], ?_, hPall, rfl, rfl⟩
      dsimp only
      rw [hP, List.append_nil, List.append_nil]
    | ok s1 =>
      rw [hc] at hP
      simp only [outSt] at hP
      dsimp only
      obtain ⟨U, hU, hUall⟩ := runPhase_calls (fun op st => syncUpdate_calls api op st)
        (updateOps ob) s1
      rw [hP] at hU
      cases hu : runPhase (syncUpdate api) (updateOps ob) s1 with
      | error e =>
        rw [hu] at hU
        simp only [outSt] at hU
        refine ⟨P, U, [], ?_, hPall, hUall, rfl⟩
        dsimp only
        rw [hU, List.append_nil]
      | ok s2 =>
        rw [hu] at hU
        simp only [outSt] at hU
        dsimp only
        obtain ⟨D, hD, hDall⟩ := runPhase_calls (fun op st => syncDelete_calls api op st)
          (deleteOps ob) s2
        rw [hU] at hD
        cases hd : runPhase (syncDelete api) (deleteOps ob) s2 with
        | error e =>
          rw [hd] at hD
          simp only [outSt] at hD
          refine ⟨P, U, D, ?_, hPall, hUall, hDall⟩
          dsimp only
          rw [hD, List.append_assoc]
        | ok s3 =>
          rw [hd] at hD
          simp only [outSt] at hD
          refine ⟨P, U, D, ?_, hPall, hUall, hDall⟩
          dsimp only
          rw [hD, List.append_assoc]

/-- C9: the completion event (`sync-complete`, here `fired = true`) is
dispatched exactly when the reconciler ran online over a non-empty outbox
and all three phases finished without an abort; any early exit — offline,
empty outbox, or an aborting phase — leaves the event unfired. -/
theorem completion_iff (api : Api) (online : Bool) (ob : List Op)
    (m : List (String × String)) (c : List Task) :
    (syncNow api online (St.init ob m c)).fired = true ↔
      (online = true ∧ ob ≠ [] ∧
       ∃ s1 s2 s3,
         runPhase (syncCreate api) (createOps ob) (St.init ob m c) = .ok s1 ∧
         runPhase (syncUpdate api) (updateOps ob) s1 = .ok s2 ∧
         runPhase (syncDelete api) (deleteOps ob) s2 = .ok s3) := by
  have hlen : (sortByTs ob).length = ob.length := (sortByTs_perm ob).length_eq
  cases online with
  | false =>
    constructor
    · intro h
      simp [syncNow, St.init] at h
    · rintro ⟨h, -⟩
      cases h
  | true =>
    by_cases h0 : (sortByTs (St.init ob m c).outbox).length = 0
    · rw [syncNow_stop api _ h0]
      have hob : ob = [] := by
        rw [St_init_outbox, hlen] at h0
        exact List.length_eq_zero.mp h0
      constructor
      · intro h
        rw [St_init_fired] at h
        cases h
      · rintro ⟨-, hne, -⟩
        exact absurd hob hne
    · rw [syncNow_online api _ h0]
      have hob : ob ≠ [] := by
        intro hcon
        rw [St_init_outbox, hlen, hcon] at h0
        exact h0 rfl
      simp only [runAll, St_init_outbox]
      have hcf := runPhase_fired (fun op st => syncCreate_fired api op st)
        (createOps ob) (St.init ob m c)
      rw [St_init_fired] at hcf
      cases hc : runPhase (syncCreate api) (createOps ob) (St.init ob m c) with
      | error e =>
        rw [hc] at hcf
        simp only [outSt] at hcf
        dsimp only
        constructor
        · intro h
          rw [hcf] at h
          cases h
        · rintro ⟨-, -, s1, s2, s3, h1, -, -⟩
          exact Except.noConfusion h1
      | ok s1 =>
        rw [hc] at hcf
        simp only [outSt] at hcf
        dsimp only
        have huf := runPhase_fired (fun op st => syncUpdate_fired api op st)
          (updateOps ob) s1
        rw [hcf] at huf
        cases hu : runPhase (syncUpdate api) (updateOps ob) s1 with
        | error e =>
          rw [hu] at huf
          simp only [outSt] at huf
          dsimp only
          constructor
          · intro h
            rw [huf] at h
            cases h
          · rintro ⟨-, -, s1', s2, s3, h1, h2, -⟩
            injection h1 with h1
            subst h1
            rw [hu] at h2
            cases h2
        | ok s2 =>
          rw [hu] at huf
          simp only [outSt] at huf
          dsimp only
          have hdf := runPhase_fired (fun op st => syncDelete_fired api op st)
            (deleteOps ob) s2
          rw [huf] at hdf
          cases hd : runPhase (syncDelete api) (deleteOps ob) s2 with
          | error e =>
            rw [hd] at hdf
            simp only [outSt] at hdf
            dsimp only
            constructor
            · intro h
              rw [hdf] at h
              cases h
            · rintro ⟨-, -, s1', s2', s3, h1, h2, h3⟩
              injection h1 with h1
              subst h1
              rw [hu] at h2
              injection h2 with h2
              subst h2
              rw [hd] at h3
              cases h3
          | ok s3 =>
            dsimp only
            constructor
            · intro _hx
              exact ⟨trivial, hob, s1, s2, s3, rfl, hu, hd⟩
            · intro _hx
              rfl

theorem syncCreate_post_origin (api : Api) (op : Op) (st : St) (b : TaskBody)
    (h : Call.post b ∈ (outSt (syncCreate api op st)).calls) :
    Call.post b ∈ st.calls ∨ ∃ d, op.data = some d ∧ b = taskBody d := by
  simp only [syncCreate] at h
  split at h
  · exact Or.inl (by simpa [outSt] using h)
  · next d hd =>
    split at h
    · simp only [outSt] at h
      rcases List.mem_append.mp h with h1 | h2
      · exact Or.inl h1
      · have h3 := List.mem_singleton.mp h2
        injection h3 with h4
        exact Or.inr ⟨d, hd, h4⟩
    · split at h
      · simp only [outSt] at h
        rcases List.mem_append.mp h with h1 | h2
        · exact Or.inl h1
        · have h3 := List.mem_singleton.mp h2
          injection h3 with h4
          exact Or.inr ⟨d, hd, h4⟩
      · simp only [outSt] at h
        rcases List.mem_append.mp h with h1 | h2
        · exact Or.inl h1
        · have h3 := List.mem_singleton.mp h2
          injection h3 with h4
          exact Or.inr ⟨d, hd, h4⟩

theorem runPhase_create_post_origin (api : Api) :
    ∀ (ops : List Op) (st : St) (b : TaskBody),
      Call.post b ∈ (outSt (runPhase (syncCreate api) ops st)).calls →
      Call.post b ∈ st.calls ∨ ∃ op ∈ ops, ∃ d, op.data = some d ∧ b = taskBody d
  | [], st, b, h => Or.inl (by simpa [runPhase, outSt] using h)
  | op :: rest, st, b, h => by
    simp only [runPhase] at h
    cases hs : syncCreate api op st with
    | error e =>
      rw [hs] at h
      dsimp only at h
      have h0 : Call.post b ∈ (outSt (syncCreate api op st)).calls := by
        rw [hs]
        exact h
      rcases syncCreate_post_origin api op st b h0 with h1 | h2
      · exact Or.inl h1
      · exact Or.inr ⟨op, List.mem_cons_self op rest, h2⟩
    | ok st1 =>
      rw [hs] at h
      dsimp only at h
      rcases runPhase_create_post_origin api rest st1 b h with h1 | h2
      · have h0 : Call.post b ∈ (outSt (syncCreate api op st)).calls := by
          rw [hs]
          exact h1
        rcases syncCreate_post_origin api op st b h0 with h3 | h4
        · exact Or.inl h3
        · exact Or.inr ⟨op, List.mem_cons_self op rest, h4⟩
      · obtain ⟨op', hop', hd⟩ := h2
        exact Or.inr ⟨op', List.mem_cons_of_mem op hop', hd⟩

/-- C10: every create call in a pass's trace transmits exactly the body
`taskBody d` — title, description and status — of some queued create
record's payload `d`, and `taskBody` ignores every other payload field
(`estimatedTime`, `actualTime`, `clienteId`, `createdAt`, `isTracking`,
`startTime`, `deleted`), so those fields are never transmitted in a replayed
create request. -/
theorem create_body_fields (api : Api) (ob : List Op) (m : List (String × String))
    (c : List Task) :
    (∀ b, Call.post b ∈ (syncNow api true (St.init ob m c)).calls →
      ∃ op ∈ createOps ob, ∃ d, op.data = some d ∧ b = taskBody d) ∧
    (∀ d e1 e2 ci ca tr stt dl,
      taskBody { d with estimatedTime := e1, actualTime := e2, clienteId := ci, createdAt := ca, isTracking := tr, startTime := stt, deleted := dl } = taskBody d) := by
  constructor
  · intro b hb
    by_cases h0 : (sortByTs (St.init ob m c).outbox).length = 0
    · rw [syncNow_stop api _ h0, St_init_calls] at hb
      exact absurd hb (List.not_mem_nil _)
    · rw [syncNow_online api _ h0] at hb
      simp only [runAll, St_init_outbox] at hb
      have horigin : ∀ st' : Except St St,
          runPhase (syncCreate api) (createOps ob) (St.init ob m c) = st' →
          Call.post b ∈ (outSt st').calls →
          ∃ op ∈ createOps ob, ∃ d, op.data = some d ∧ b = taskBody d := by
        intro st' hst' hmem
        rcases runPhase_create_post_origin api (createOps ob) (St.init ob m c) b
          (by rw [hst']; exact hmem) with h1 | h2
        · rw [St_init_calls] at h1
          exact absurd h1 (List.not_mem_nil _)
        · exact h2
      cases hc : runPhase (syncCreate api) (createOps ob) (St.init ob m c) with
      | error e =>
        rw [hc] at hb
        dsimp only at hb
        exact horigin (.error e) hc (by simpa [outSt] using hb)
      | ok s1 =>
        rw [hc] at hb
        dsimp only at hb
        have hs1 : Call.post b ∈ s1.calls →
            ∃ op ∈ createOps ob, ∃ d, op.data = some d ∧ b = taskBody d :=
          fun hmem => horigin (.ok s1) hc (by simpa [outSt] using hmem)
        obtain ⟨U, hU, hUall⟩ := runPhase_calls (fun op st => syncUpdate_calls api op st)
          (updateOps ob) s1
        cases hu : runPhase (syncUpdate api) (updateOps ob) s1 with
        | error e =>
          rw [hu] at hU
          simp only [outSt] at hU
          rw [hu] at hb
          dsimp only at hb
          rw [hU] at hb
          rcases List.mem_append.mp hb with h1 | h2
          · exact hs1 h1
          · exact absurd h2 (mem_all_false hUall rfl)
        | ok s2 =>
          rw [hu] at hU
          simp only [outSt] at hU
          rw [hu] at hb
          dsimp only at hb
          have hs2 : Call.post b ∈ s2.calls →
              ∃ op ∈ createOps ob, ∃ d, op.data = some d ∧ b = taskBody d := by
            intro hmem
            rw [hU] at hmem
            rcases List.mem_append.mp hmem with h1 | h2
            · exact hs1 h1
            · exact absurd h2 (mem_all_false hUall rfl)
          obtain ⟨D, hD, hDall⟩ := runPhase_calls (fun op st => syncDelete_calls api op st)
            (deleteOps ob) s2
          cases hd : runPhase (syncDelete api) (deleteOps ob) s2 with
          | error e =>
            rw [hd] at hD
            simp only [outSt] at hD
            rw [hd] at hb
            dsimp only at hb
            rw [hD] at hb
            rcases List.mem_append.mp hb with h1 | h2
            · exact hs2 h1
            · exact absurd h2 (mem_all_false hDall rfl)
          | ok s3 =>
            rw [hd] at hD
            simp only [outSt] at hD
            rw [hd] at hb
            dsimp only at hb
            rw [show ({ s3 with fired := true } : St).calls = s3.calls from rfl, hD] at hb
            rcases List.mem_append.mp hb with h1 | h2
            · exact hs2 h1
            · exact absurd h2 (mem_all_false hDall rfl)
  · intro d e1 e2 ci ca tr stt dl
    rfl

/-- C10 witness: in the concrete pass over `[opCreateA]` the create call's
body is in the trace, and it is the `taskBody` of the record's payload. -/
theorem create_body_fields_witness :
    (Call.post (taskBody payloadA) ∈
      (syncNow apiRespB true (St.init [opCreateA] [] [])).calls) ∧
    (∃ op ∈ createOps [opCreateA], ∃ d, op.data = some d ∧
      taskBody payloadA = taskBody d) :=
  ⟨by decide,
   (create_body_fields apiRespB [opCreateA] [] []).1 (taskBody payloadA) (by decide)⟩

/-- C3: when the create phase aborts — for any reason: a rejected call, the
id-validation check, or a malformed record — the pass ends in the aborting
state: no update or delete call was or will be made (the whole trace is
create calls), the completion event is not dispatched, every update and
delete record is still in the outbox, and the phase decomposes as a
successfully processed prefix followed by the failing create record, which —
like every create record after it — is still in the outbox. -/
theorem create_fail_stop (api : Api) (ob : List Op) (m : List (String × String))
    (c : List Task) (stf : St)
    (hnd : (ob.map (fun o => o._id)).Nodup)
    (hfail : runPhase (syncCreate api) (createOps ob) (St.init ob m c) = .error stf) :
    syncNow api true (St.init ob m c) = stf ∧
    stf.calls.all isPost = true ∧
    stf.fired = false ∧
    (∀ r ∈ ob, r.op = OpKind.update ∨ r.op = OpKind.delete → r ∈ stf.outbox) ∧
    (∃ pre x post st1, createOps ob = pre ++ x :: post ∧
      runPhase (syncCreate api) pre (St.init ob m c) = .ok st1 ∧
      syncCreate api x st1 = .error stf ∧
      x ∈ stf.outbox ∧ (∀ r ∈ post, r ∈ stf.outbox)) := by
  have h0 : ¬ (sortByTs (St.init ob m c).outbox).length = 0 := by
    intro h0
    have hnil : sortByTs ob = [] := by
      rw [St_init_outbox] at h0
      exact List.length_eq_zero.mp h0
    rw [createOps, hnil] at hfail
    simp [runPhase] at hfail
  have hA : syncNow api true (St.init ob m c) = stf := by
    rw [syncNow_online api _ h0]
    simp only [runAll, St_init_outbox, hfail]
  have hB : stf.calls.all isPost = true := by
    obtain ⟨P, hP, hPall⟩ := runPhase_calls (fun op st => syncCreate_calls api op st)
      (createOps ob) (St.init ob m c)
    rw [hfail] at hP
    simp only [outSt] at hP
    rw [St_init_calls, List.nil_append] at hP
    rw [hP]
    exact hPall
  have hfired : stf.fired = false := by
    have hf := runPhase_fired (fun op st => syncCreate_fired api op st)
      (createOps ob) (St.init ob m c)
    rw [hfail] at hf
    simp only [outSt] at hf
    rw [hf, St_init_fired]
  have hkeep := @runPhase_keep (syncCreate api)
    (fun _ _ _ h => syncCreate_outbox_ok h)
    (fun _ _ _ h => syncCreate_outbox_error h)
  have hC : ∀ r ∈ ob, r.op = OpKind.update ∨ r.op = OpKind.delete → r ∈ stf.outbox := by
    intro r hr hkind
    have hne : ∀ op ∈ createOps ob, r._id ≠ op._id := by
      intro op hop heq
      obtain ⟨hopob, hopk⟩ := mem_of_mem_createOps hop
      have hro : r = op := eq_of_mem_of_nodup_map hnd hr hopob heq
      rcases hkind with h | h <;> rw [hro] at h <;> rw [hopk] at h <;> cases h
    have hm := hkeep (createOps ob) (St.init ob m c) r
      (by rw [St_init_outbox]; exact hr) hne
    rw [hfail] at hm
    simpa [outSt] using hm
  obtain ⟨pre, x, post, st1, hops, hpre, hx⟩ := runPhase_eq_error hfail
  have hidnd : ((pre ++ x :: post).map (fun o => o._id)).Nodup := by
    rw [← hops]
    exact nodup_ids_createOps hnd
  rw [List.map_append] at hidnd
  have hdisj := (List.nodup_append.mp hidnd).2.2
  have hxpre : ∀ op ∈ pre, x._id ≠ op._id := by
    intro op hop heq
    have hmem1 : x._id ∈ pre.map (fun o => o._id) := by
      rw [heq]
      exact List.mem_map_of_mem _ hop
    have hmem2 : x._id ∈ (x :: post).map (fun o => o._id) :=
      List.mem_map_of_mem _ (List.mem_cons_self x post)
    exact hdisj hmem1 hmem2
  have hpostpre : ∀ r ∈ post, ∀ op ∈ pre, r._id ≠ op._id := by
    intro r hrpost op hop heq
    have hmem1 : r._id ∈ pre.map (fun o => o._id) := by
      rw [heq]
      exact List.mem_map_of_mem _ hop
    have hmem2 : r._id ∈ (x :: post).map (fun o => o._id) :=
      List.mem_map_of_mem _ (List.mem_cons_of_mem x hrpost)
    exact hdisj hmem1 hmem2
  have hxob : x ∈ ob :=
    (mem_of_mem_createOps (by
      rw [hops]
      exact List.mem_append_right _ (List.mem_cons_self x post))).1
  have hobeq : stf.outbox = st1.outbox := syncCreate_outbox_error hx
  refine ⟨hA, hB, hfired, hC, pre, x, post, st1, hops, hpre, hx, ?_, ?_⟩
  · have hm := hkeep pre (St.init ob m c) x (by rw [St_init_outbox]; exact hxob) hxpre
    rw [hpre] at hm
    rw [hobeq]
    simpa [outSt] using hm
  · intro r hrpost
    have hrob : r ∈ ob :=
      (mem_of_mem_createOps (by
        rw [hops]
        exact List.mem_append_right _ (List.mem_cons_of_mem x hrpost))).1
    have hm := hkeep pre (St.init ob m c) r (by rw [St_init_outbox]; exact hrob)
      (hpostpre r hrpost)
    rw [hpre] at hm
    rw [hobeq]
    simpa [outSt] using hm

/-- C3 witness: over the concrete mixed outbox `obMixed` with an API that
rejects every call, the create phase aborts on its first record and the
whole conclusion of the fail-stop theorem holds. -/
theorem create_fail_stop_witness :
    ((obMixed.map (fun o => o._id)).Nodup ∧
      runPhase (syncCreate apiDown) (createOps obMixed) (St.init obMixed [] []) =
        .error stfW) ∧
    (syncNow apiDown true (St.init obMixed [] []) = stfW ∧
     stfW.calls.all isPost = true ∧
     stfW.fired = false ∧
     (∀ r ∈ obMixed, r.op = OpKind.update ∨ r.op = OpKind.delete → r ∈ stfW.outbox) ∧
     (∃ pre x post st1, createOps obMixed = pre ++ x :: post ∧
       runPhase (syncCreate apiDown) pre (St.init obMixed [] []) = .ok st1 ∧
       syncCreate apiDown x st1 = .error stfW ∧
       x ∈ stfW.outbox ∧ (∀ r ∈ post, r ∈ stfW.outbox))) :=
  ⟨⟨by decide, by decide⟩,
   create_fail_stop apiDown obMixed [] [] stfW (by decide) (by decide)⟩

/-- C6 witness: concretely, a delete record with explicit server id `"s9"`
deletes `"s9"`, a mapped delete record resolves `"c1"` to `"s1"` and deletes
`"s1"`, and with a rejecting API the phase over the remaining records stops
with the aborting state. -/
theorem delete_resolution_witness :
    (syncDelete apiRespB opDeleteS9 (St.init [] [] []) = .ok { St.init [] [] [] with cache := removeTaskLocal (St.init [] [] []).cache "s9", outbox := removePendingOp (St.init [] [] []).outbox opDeleteS9._id, calls := (St.init [] [] []).calls ++ [Call.delete "s9"] }) ∧
    (syncDelete apiRespB opDeleteC1 (St.init [] [("c1", "s1")] []) = .ok { St.init [] [("c1", "s1")] [] with cache := removeTaskLocal (St.init [] [("c1", "s1")] []).cache "s1", outbox := removePendingOp (St.init [] [("c1", "s1")] []).outbox opDeleteC1._id, calls := (St.init [] [("c1", "s1")] []).calls ++ [Call.delete "s1"] }) ∧
    (runPhase (syncDelete apiDown) [opDeleteS9] (St.init [] [] []) = .error { St.init [] [] [] with calls := (St.init [] [] []).calls ++ [Call.delete "s9"] }) :=
  ⟨((delete_resolution apiRespB opDeleteS9 (St.init [] [] []) "s9").1 rfl
      (by decide)).1 rfl,
   ((delete_resolution apiRespB opDeleteC1 (St.init [] [("c1", "s1")] []) "s1").2.1 rfl
      (by decide) (by decide) (by decide)).1 rfl,
   (delete_resolution apiDown opDeleteS9 (St.init [] [] []) "s9").2.2 [] _
     (((delete_resolution apiDown opDeleteS9 (St.init [] [] []) "s9").1 rfl
        (by decide)).2 rfl)⟩

end Yael
